import Mathlib

/-!
# Verification of the Universal Offline OCR job orchestrator

A shallow embedding, in Lean 4, of the job-orchestration core of the
Universal Offline OCR repository:

* `src/ocr-app/src/app/page.tsx` — the job table, the intake handler
  (`handleFiles`), the execution driver (`processFile`), the per-page
  recognition loop with its progress and warning bookkeeping, the segment
  aggregation (`combineSegments`), and the language registry handlers
  (`handleLanguageToggle`, `handleLanguageImport`).
* the custom service worker (the `fetch` listener caching
  `/tesseract/` artifacts) — embedded as a small-step interleaving
  machine so that concurrent cache requests can be analysed.

External collaborators (the recognition engine, the format decoders, the
clock and the id generator) are represented by explicit oracle inputs:
the decoders' outputs appear as `FileContent`, the engine's per-page
behaviour as `PageRun`, `performance.now` durations and `Date.now`
timestamps as parameters.  JavaScript numbers are modelled as `ℚ`
(every value produced by this code is a ratio of small integers), and
fallible steps as `Except`/`Option`.
-/

/-- Job lifecycle states, from `type JobStatus` in `page.tsx`. -/
inductive JobStatus where
  | pending
  | processing
  | completed
  | error
deriving DecidableEq

/-- One page's recognition result, from `type RecognizedSegment`. -/
structure RecognizedSegment where
  pageIndex : Nat
  text : String
  confidence : ℚ
deriving DecidableEq

/-- A job record, from `type OcrJob` in `page.tsx`. -/
structure OcrJob where
  id : String
  name : String
  type : String
  size : Nat
  status : JobStatus
  languages : List String
  progress : ℚ
  startedAt : Nat
  completedAt : Option Nat
  error : Option String
  segments : List RecognizedSegment
  extractedText : String
  warnings : List String
deriving DecidableEq

/-- A registered language artifact.  Modelled from the spec: the module
`lib/languages` (not under `src/`) declares `LanguageOption` with a code,
a human label, a storage path and a built-in marker; `page.tsx` constructs
values `{ code, label, path }` for imported languages. -/
structure LanguageOption where
  code : String
  label : String
  path : String
  builtIn : Bool
deriving DecidableEq

/-- JS `String.prototype.startsWith`, modelled on the character list. -/
def jsStartsWith (s p : String) : Bool := p.data.isPrefixOf s.data

/-- JS `String.prototype.endsWith`, modelled on the character list. -/
def jsEndsWith (s p : String) : Bool := p.data.isSuffixOf s.data

/-- JS `String.prototype.toLowerCase`, modelled on the character list. -/
def jsToLower (s : String) : String := ⟨s.data.map Char.toLower⟩

/-- JS `String.prototype.toUpperCase`, modelled on the character list. -/
def jsToUpper (s : String) : String := ⟨s.data.map Char.toUpper⟩

/-- JS `String.prototype.trim`, modelled on the character list. -/
def jsTrim (s : String) : String :=
  ⟨((s.data.dropWhile Char.isWhitespace).reverse.dropWhile Char.isWhitespace).reverse⟩

/-- `Number.prototype.toFixed(2)`, modelled over `ℚ`: round to the nearest
hundredth — `scaled` is `⌊q*100 + 1/2⌋`, computed on the normalized
fraction — and print with exactly two decimal places. -/
def toFixed2 (q : ℚ) : String :=
  let scaled : Int := (200 * q.num + q.den).fdiv (2 * q.den)
  let sign : String := if scaled < 0 then "-" else ""
  let a : Nat := scaled.natAbs
  sign ++ toString (a / 100) ++ "." ++ (if a % 100 < 10 then "0" else "") ++ toString (a % 100)

/-- `Number.prototype.toFixed(1)`, modelled over `ℚ`: `scaled` is
`⌊q*10 + 1/2⌋` on the normalized fraction. -/
def toFixed1 (q : ℚ) : String :=
  let scaled : Int := (20 * q.num + q.den).fdiv (2 * q.den)
  let sign : String := if scaled < 0 then "-" else ""
  let a : Nat := scaled.natAbs
  sign ++ toString (a / 10) ++ "." ++ toString (a % 10)

/-- The string built for one segment inside `combineSegments`:
`--- Page ${index + 1} (Confidence: ${confidence}%) ---\n${text.trim()}\n`.
`index` is the segment's position in the sorted array, 0-based. -/
def renderSegment (index : Nat) (segment : RecognizedSegment) : String :=
  "--- Page " ++ toString (index + 1) ++ " (Confidence: " ++ toFixed2 segment.confidence
    ++ "%) ---\n" ++ jsTrim segment.text ++ "\n"

/-- The `.sort((a, b) => a.pageIndex - b.pageIndex)` step of
`combineSegments`: JS `Array.prototype.sort` is a stable sort, so the
result is the stable ascending ordering by page index; any stable sort
with the same comparator produces the identical list, and we use a
structurally recursive one. -/
def sortSegments (segments : List RecognizedSegment) : List RecognizedSegment :=
  segments.insertionSort (fun a b => a.pageIndex ≤ b.pageIndex)

/-- The per-segment lines produced by `combineSegments` before joining. -/
def segmentLines (segments : List RecognizedSegment) : List String :=
  (sortSegments segments).mapIdx renderSegment

/-- `combineSegments` from `page.tsx`: sort by page index, render each
segment with its position-based page number, join with a blank line. -/
def combineSegments (segments : List RecognizedSegment) : String :=
  String.intercalate ("\n") (segmentLines segments)

/-- `aggregatedText` from `page.tsx`: the directly-extracted text (when
non-empty, trimmed and followed by a blank line) followed by the combined
segments. -/
def aggregatedText (job : OcrJob) : String :=
  (if job.extractedText = "" then "" else (jsTrim job.extractedText) ++ "\n\n")
    ++ combineSegments job.segments

/-- `handleLanguageToggle` from `page.tsx`: deselect a selected code unless
it is the last one (the selection is never emptied), select an unselected
code by appending it. -/
def handleLanguageToggle (code : String) (prev : List String) : List String :=
  if prev.contains code then
    let next := prev.filter (fun item => item != code)
    if next.length > 0 then next else prev
  else prev ++ [code]

/-- The outcome of one `recognizeImage` call: the engine either resolves
with text and a confidence score, or rejects (throws). -/
inductive RecognitionOutcome where
  | ok (text : String) (confidence : ℚ)
  | failed (message : String)
deriving DecidableEq

/-- The observable behaviour of the external recognition engine on one
rendered page: the intra-page fractions it reports through the progress
callback, its final outcome, and the `performance.now` duration of the
call in milliseconds. -/
structure PageRun where
  progressEvents : List ℚ
  outcome : RecognitionOutcome
  duration : ℚ
deriving DecidableEq

/-- A submitted file's content as seen through the external decoders:
which branch of `processFile` it takes and what that branch's decoder
calls produce (rendered pages for images and PDFs, extracted text plus
embedded-image pages for DOCX). -/
inductive FileContent where
  | image (pages : List PageRun)
  | pdf (pages : List PageRun)
  | docx (text : String) (imagePages : List PageRun)
  | unsupported
deriving DecidableEq

/-- Warning pushed by the DOCX branch when `extractDocxImages` returns
no blobs (`page.tsx` line 173). -/
def noEmbeddedImagesWarning : String :=
  "No embedded images found in the document; OCR is limited to textual extraction."

/-- Warning pushed when the resolved content has no pages and no text
(`page.tsx` line 184). -/
def noVisualContentWarning : String := "No visual content found for OCR."

/-- The document-resolution section of `processFile` (lines 165-181):
produces the canvases, the extracted text and the warnings pushed so far,
or throws "Unsupported file type". -/
def resolveContent : FileContent → Except String (List PageRun × String × List String)
  | .image pages => .ok (pages, "", [])
  | .pdf pages => .ok (pages, "", [])
  | .docx text imagePages =>
      if imagePages.length = 0 then .ok ([], text, [noEmbeddedImagesWarning])
      else .ok (imagePages, text, [])
  | .unsupported => .error ("Unsupported file type")

/-- The pages a content value resolves to (empty when resolution throws). -/
def contentPages (content : FileContent) : List PageRun :=
  match resolveContent content with
  | .ok (pages, _, _) => pages
  | .error _ => []

/-- The denominator `canvases.length || 1` used for progress fractions. -/
def pageDenominator (n : Nat) : ℚ := if n = 0 then 1 else (n : ℚ)

/-- The slow-page warning (`page.tsx` lines 210-215): pushed when one
page's recognition exceeded 15000 ms. -/
def durationWarning (index : Nat) (duration : ℚ) : Option String :=
  if 15000 < duration then
    some ("Page " ++ toString (index + 1) ++ " took " ++ toFixed1 (duration / 1000)
      ++ "s to process. Consider splitting large documents.")
  else none

/-- What the page loop of `processFile` (lines 189-224) leaves behind:
the segments appended via `appendSegment`, the local `warnings` array,
the value most recently written to the job's `warnings` field, the
sequence of values written to the job's `progress` field, and the message
of the first page whose recognition threw, if any. -/
structure PageLoopResult where
  segments : List RecognizedSegment
  warningsLocal : List String
  warningsWritten : List String
  progressWrites : List ℚ
  failure : Option String
deriving DecidableEq

/-- The page loop of `processFile`.  `index` is the loop counter, `d` the
progress denominator, `warnings` the local warnings array, `written` the
job's current `warnings` field.  Pages run strictly in order; a page whose
recognition throws aborts the loop (there is no per-page catch in the
source), recording the message in `failure`. -/
def pageLoop (d : ℚ) : Nat → List String → List String → List PageRun → PageLoopResult
  | _index, warnings, written, [] =>
      { segments := [], warningsLocal := warnings, warningsWritten := written,
        progressWrites := [], failure := none }
  | index, warnings, written, page :: rest =>
      let callbackWrites := page.progressEvents.map (fun f => ((index : ℚ) + f) / d)
      match page.outcome with
      | .failed msg =>
          { segments := [], warningsLocal := warnings, warningsWritten := written,
            progressWrites := callbackWrites, failure := some msg }
      | .ok text confidence =>
          let warnings' := warnings ++ (durationWarning index page.duration).toList
          let r := pageLoop d (index + 1) warnings' warnings' rest
          { segments := { pageIndex := index, text := text, confidence := confidence } :: r.segments,
            warningsLocal := r.warningsLocal,
            warningsWritten := r.warningsWritten,
            progressWrites := callbackWrites ++ ((index : ℚ) + 1) / d :: r.progressWrites,
            failure := r.failure }

/-- The outcome of one `processFile` execution on one job: the job's final
record and the ordered sequence of values written to its `progress` field
(the snapshots an observer can see). -/
structure RunResult where
  job : OcrJob
  progressTrace : List ℚ
deriving DecidableEq

/-- The body of `processFile` (lines 150-239) for a claimed job: set
`processing`, ensure the language artifacts (`ensureOutcome` is the
`Promise.all` result), resolve the document, push the empty-content
warning when nothing resolved, run the page loop, then either mark
`completed` (progress 1, completion timestamp `now`, extracted text and
final warnings written) or, when any step threw, mark `error` with the
message — the catch writes only `status` and `error`. -/
def runProcessFile (job : OcrJob) (ensureOutcome : Except String Unit)
    (content : FileContent) (now : Nat) : RunResult :=
  let job1 : OcrJob := { job with status := .processing, progress := 0, error := none }
  match ensureOutcome with
  | .error m => { job := { job1 with status := .error, error := some m }, progressTrace := [0] }
  | .ok _ =>
    match resolveContent content with
    | .error m => { job := { job1 with status := .error, error := some m }, progressTrace := [0] }
    | .ok (pages, extractedText, resolveWarnings) =>
      let warnings0 :=
        if pages.length = 0 ∧ extractedText = "" then resolveWarnings ++ [noVisualContentWarning]
        else resolveWarnings
      let d := pageDenominator pages.length
      let r := pageLoop d 0 warnings0 job1.warnings pages
      match r.failure with
      | some msg =>
          { job :=
              { job1 with
                segments := job1.segments ++ r.segments,
                warnings := r.warningsWritten,
                progress := (0 :: r.progressWrites).getLastD 0,
                status := .error, error := some msg },
            progressTrace := 0 :: r.progressWrites }
      | none =>
          { job :=
              { job1 with
                segments := job1.segments ++ r.segments,
                warnings := r.warningsLocal,
                progress := 1,
                status := .completed, completedAt := some now,
                     extractedText := extractedText },
            progressTrace := 0 :: r.progressWrites ++ [1] }

/-- The orchestrator's mutable state: the job table and the `fileMap`
ref associating job ids with their submitted files. -/
structure AppState where
  jobs : List OcrJob
  fileMap : List (String × FileContent)
deriving DecidableEq

/-- `processFile` as the execution driver (lines 144-242): look the job
up by id, look its file up in `fileMap`; if either is missing, return
without touching anything (this is the only guard — the job's status is
not inspected).  Otherwise run the job and, in the `finally`, delete the
file mapping. -/
def processFile (jobId : String) (ensureOutcome : Except String Unit) (now : Nat)
    (s : AppState) : AppState :=
  match s.jobs.find? (fun j => j.id == jobId) with
  | none => s
  | some job =>
    match s.fileMap.lookup jobId with
    | none => s
    | some content =>
      let r := runProcessFile job ensureOutcome content now
      { jobs := s.jobs.map (fun j => if j.id == jobId then r.job else j),
        fileMap := s.fileMap.filter (fun p => p.1 != jobId) }

/-- A submitted file as `handleFiles` sees it: `name`, MIME `type`,
`size`, plus (for the model) what its content resolves to downstream. -/
structure FileMeta where
  name : String
  type : String
  size : Nat
  content : FileContent
deriving DecidableEq

/-- `SUPPORTED_FILE_TYPES` from `page.tsx`. -/
def SUPPORTED_FILE_TYPES : List String :=
  ["image/png", "image/jpeg", "image/webp", "image/gif", "image/bmp",
   "application/pdf",
   "application/vnd.openxmlformats-officedocument.wordprocessingml.document"]

/-- `isImage` from `page.tsx`. -/
def isImage (f : FileMeta) : Bool := jsStartsWith f.type ("image/")

/-- `isPdf` from `page.tsx`. -/
def isPdf (f : FileMeta) : Bool :=
  f.type == "application/pdf" || jsEndsWith f.name (".pdf")

/-- `isDocx` from `page.tsx`. -/
def isDocx (f : FileMeta) : Bool :=
  f.type == "application/vnd.openxmlformats-officedocument.wordprocessingml.document"
    || jsEndsWith f.name (".docx")

/-- The acceptance test inside `handleFiles` (lines 259-264). -/
def isSupportedFile (f : FileMeta) : Bool :=
  SUPPORTED_FILE_TYPES.contains f.type || isImage f || isPdf f || isDocx f

/-- `readableFileType` from `page.tsx`. -/
def readableFileType (mimeType : String) (fileName : String) : String :=
  if jsStartsWith mimeType ("image/") then "Image"
  else if mimeType == "application/pdf" || jsEndsWith fileName (".pdf") then "PDF"
  else if jsEndsWith fileName (".docx") then "Word Document"
  else if mimeType == "" then "Unknown" else mimeType

/-- The synthetic entry `handleFiles` prepends to the job list when some
submitted files are unsupported (lines 271-290). -/
def unsupportedFilesJob (id : String) (selected : List String) (now : Nat)
    (rejectedNames : List String) : OcrJob :=
  { id := id, name := "Unsupported files", type := "System", size := 0,
    status := .error, languages := selected, progress := 0, startedAt := now,
    completedAt := none,
    error := some ("Unsupported files: " ++ String.intercalate (", ") rejectedNames),
    segments := [], extractedText := "", warnings := [] }

/-- The pending job `handleFiles` prepends for one accepted file
(lines 292-311). -/
def newPendingJob (id : String) (selected : List String) (now : Nat) (f : FileMeta) : OcrJob :=
  { id := id, name := f.name, type := readableFileType f.type f.name, size := f.size,
    status := .pending, languages := selected, progress := 0, startedAt := now,
    completedAt := none, error := none, segments := [], extractedText := "",
    warnings := [] }

/-- `handleFiles` from `page.tsx` (lines 252-314).  `newId` models the
successive `uuid()` draws, in the order the source makes them: one for
the rejected-files entry (when any file is rejected), then one per
accepted file.  Each accepted file gets a pending job prepended to the
table and its file recorded in `fileMap`; rejected files yield a single
synthetic `error` entry and no file mapping. -/
def handleFiles (newId : Nat → String) (selected : List String) (now : Nat)
    (files : List FileMeta) (s : AppState) : AppState :=
  let accepted := files.filter isSupportedFile
  let rejected := (files.filter (fun f => !(isSupportedFile f))).map (fun f => f.name)
  let start : AppState × Nat :=
    if rejected.length > 0 then
      ({ jobs := unsupportedFilesJob (newId 0) selected now rejected :: s.jobs,
         fileMap := s.fileMap }, 1)
    else ({ jobs := s.jobs, fileMap := s.fileMap }, 0)
  (accepted.foldl (fun (acc : AppState × Nat) f =>
      ({ jobs := newPendingJob (newId acc.2) selected now f :: acc.1.jobs,
         fileMap := acc.1.fileMap ++ [(newId acc.2, f.content)] }, acc.2 + 1))
    start).1

/-- The language-panel state touched by `handleLanguageImport`. -/
structure LangState where
  availableLanguages : List LanguageOption
  selectedLanguages : List String
deriving DecidableEq

/-- Modelled from the spec: `importLanguageFromFile` (module
`lib/cacheLanguage`, not under `src/`) registers the uploaded bytes as an
already-cached artifact under the given code and resolves with that code
and its storage path, or rejects when the bytes are unreadable
(`InvalidArtifact`).  The success path and the storage path are supplied
through `outcome`. -/
def importLanguageFromFile (code : String) (outcome : Except String String) :
    Except String (String × String) :=
  outcome.map (fun path => (code, path))

/-- `handleLanguageImport` from `page.tsx` (lines 345-369): guard on a
chosen file and a non-blank code, import under the lower-cased code, then
append the new option to `availableLanguages` and add the code to the
selection if absent.  The catch only logs, leaving both lists unchanged. -/
def handleLanguageImport (hasLanguageFile : Bool) (languageCodeInput : String)
    (outcome : Except String String) (s : LangState) : LangState :=
  if !hasLanguageFile || jsTrim languageCodeInput == "" then s
  else
    match importLanguageFromFile (jsToLower languageCodeInput) outcome with
    | .error _ => s
    | .ok (code, path) =>
        { availableLanguages := s.availableLanguages
            ++ [{ code := code, label := jsToUpper code, path := path, builtIn := false }],
          selectedLanguages :=
            if s.selectedLanguages.contains code then s.selectedLanguages
            else s.selectedLanguages ++ [code] }

/-- How the network answers one `fetch(event.request)` in the service
worker: it either resolves with an HTTP response (any status code — HTTP
errors such as 404 resolve, they do not reject) or rejects (offline,
network failure). -/
inductive FetchOutcome where
  | response (status : Nat)
  | netFailure
deriving DecidableEq

/-- The control point of one in-flight `/tesseract/` fetch-event handler
in the service worker: before its `cache.match` lookup, after observing a
miss and before its network fetch, or finished having served a response
(recording the served status and whether it came from the cache). -/
inductive HandlerPhase where
  | matching
  | fetching
  | done (servedStatus : Nat) (fromCache : Bool)
deriving DecidableEq

/-- The shared state of the service worker's language cache for one
artifact key: the cached response (if any), the concurrent handlers for
that key paired with the network outcome each would get, and how many
network fetches have been issued. -/
structure SWState where
  cache : Option Nat
  handlers : List (HandlerPhase × FetchOutcome)
  fetchCount : Nat
deriving DecidableEq

/-- One atomic step of handler `i`, following the `fetch` listener of the
custom service worker: at `matching`, `await cache.match` — a hit is
served directly, a miss moves on to fetching; at `fetching`, the network
fetch resolves or rejects — a resolved response is `cache.put` whatever
its status and served, a rejection is answered with a synthetic 503 and
nothing is cached.  Steps of different handlers interleave freely. -/
def swStep (s : SWState) (i : Nat) : SWState :=
  match s.handlers.get? i with
  | none => s
  | some (phase, outcome) =>
    match phase with
    | .matching =>
        match s.cache with
        | some st => { s with handlers := s.handlers.set i (.done st true, outcome) }
        | none => { s with handlers := s.handlers.set i (.fetching, outcome) }
    | .fetching =>
        match outcome with
        | .response st =>
            { cache := some st,
              handlers := s.handlers.set i (.done st false, outcome),
              fetchCount := s.fetchCount + 1 }
        | .netFailure =>
            { s with handlers := s.handlers.set i (.done 503 false, outcome),
                     fetchCount := s.fetchCount + 1 }
    | .done _ _ => s

/-- Run a schedule: an arbitrary interleaving of the handlers' steps. -/
def swRun (s : SWState) (sched : List Nat) : SWState := sched.foldl swStep s

/-- `N` concurrent requests for one uncached artifact key, each paired
with the network outcome its own fetch would get. -/
def swInit (outcomes : List FetchOutcome) : SWState :=
  { cache := none,
    handlers := outcomes.map (fun o => (HandlerPhase.matching, o)),
    fetchCount := 0 }

/-- A fresh job as admitted by `handleFiles`, used as concrete input. -/
def sampleJob (jid : String) : OcrJob :=
  { id := jid, name := "doc.png", type := "Image", size := 120, status := .pending,
    languages := ["eng"], progress := 0, startedAt := 0, completedAt := none,
    error := none, segments := [], extractedText := "", warnings := [] }

/-- A page whose recognition succeeds quickly with the given text. -/
def okPage (text : String) : PageRun :=
  { progressEvents := [], outcome := .ok text 90, duration := 100 }

/-- A page whose recognition call rejects with the given message. -/
def failPage (message : String) : PageRun :=
  { progressEvents := [], outcome := .failed message, duration := 100 }

/-- Whether a page's recognition call resolves. -/
def pageOk (p : PageRun) : Bool :=
  match p.outcome with
  | .ok _ _ => true
  | .failed _ => false

/-- A list member of `getLast?` is a member of the list. -/
theorem mem_of_mem_getLast? {α : Type} {l : List α} {x : α} (h : x ∈ l.getLast?) : x ∈ l := by
  obtain ⟨hne, hx⟩ := List.mem_getLast?_eq_getLast h
  exact hx ▸ List.getLast_mem hne

/-- Running the page loop over fast succeeding pages followed by a failing
page: the loop aborts at the failing page, having appended exactly one
segment per preceding page (indices `i, i+1, …`) and written no new
warnings. -/
theorem pageLoop_fail_spec (d : ℚ) (post : List PageRun) (p : PageRun) (msg : String)
    (hp : p.outcome = .failed msg) :
    ∀ (pre : List PageRun) (i : Nat) (w : List String),
      (∀ q ∈ pre, pageOk q = true ∧ q.duration ≤ 15000) →
      (pageLoop d i w w (pre ++ p :: post)).failure = some msg ∧
      (pageLoop d i w w (pre ++ p :: post)).segments.map (fun s => s.pageIndex)
        = List.range' i pre.length ∧
      (pageLoop d i w w (pre ++ p :: post)).warningsWritten = w := by
  intro pre
  induction pre with
  | nil =>
    intro i w _
    simp [pageLoop, hp]
  | cons q pre ih =>
    intro i w hq
    have hqok := (hq q (by simp)).1
    have hqdur := (hq q (by simp)).2
    rcases houtcome : q.outcome with ⟨t, c⟩ | m
    · have hdw : durationWarning i q.duration = none := by
        simp [durationWarning, not_lt.mpr hqdur]
      obtain ⟨h1, h2, h3⟩ := ih (i + 1) w (fun r hr => hq r (by simp [hr]))
      simp only [List.cons_append, pageLoop, houtcome, hdw, Option.toList, List.append_nil]
      refine ⟨h1, ?_, h3⟩
      simp [h2, List.range'_succ]
    · exfalso
      simp [pageOk, houtcome] at hqok

/-- C1, counterexample.  A 3-page document where page 2's recognition
call fails while pages 1 and 3 would succeed: the claim says the job
finishes `completed` with a warning mentioning page 2 and segments for
indices 0 and 2.  In the code the loop has no per-page catch, so the
exception reaches the job-level catch: the job ends in `error`, no
warning is recorded, and the segment for index 2 is absent because the
loop never reached that page. -/
theorem c1_counterexample :
    (runProcessFile (sampleJob "j1") (.ok ())
        (.image [okPage "a", failPage "boom", okPage "c"]) 7).job.status ≠ .completed ∧
    (runProcessFile (sampleJob "j1") (.ok ())
        (.image [okPage "a", failPage "boom", okPage "c"]) 7).job.status = .error ∧
    (runProcessFile (sampleJob "j1") (.ok ())
        (.image [okPage "a", failPage "boom", okPage "c"]) 7).job.error = some "boom" ∧
    (runProcessFile (sampleJob "j1") (.ok ())
        (.image [okPage "a", failPage "boom", okPage "c"]) 7).job.warnings = [] ∧
    (runProcessFile (sampleJob "j1") (.ok ())
        (.image [okPage "a", failPage "boom", okPage "c"]) 7).job.segments.map
          (fun s => s.pageIndex) = [0] := by
  decide

/-- C1, amended: if recognition of any page of a multi-page document
fails, the job finishes with status `error` carrying that page's message
(not `completed`); the segments of the pages before the first failing
page are present and intact, the failing page's segment and those of all
later pages are absent, and no warning about the failure is recorded.
Stated for a fresh job (no prior segments or warnings) over an image
document whose pages before the failure succeed within the duration
threshold. -/
theorem c1_theorem (job : OcrJob) (now : Nat) (pre post : List PageRun) (p : PageRun)
    (msg : String)
    (hpre : ∀ q ∈ pre, pageOk q = true ∧ q.duration ≤ 15000)
    (hp : p.outcome = .failed msg)
    (hseg : job.segments = []) (hw : job.warnings = []) :
    (runProcessFile job (.ok ()) (.image (pre ++ p :: post)) now).job.status = .error ∧
    (runProcessFile job (.ok ()) (.image (pre ++ p :: post)) now).job.error = some msg ∧
    (runProcessFile job (.ok ()) (.image (pre ++ p :: post)) now).job.segments.map
      (fun s => s.pageIndex) = List.range pre.length ∧
    (runProcessFile job (.ok ()) (.image (pre ++ p :: post)) now).job.warnings = [] := by
  obtain ⟨h1, h2, h3⟩ :=
    pageLoop_fail_spec (pageDenominator (pre ++ p :: post).length) post p msg hp pre 0 [] hpre
  have hcond : ¬((pre ++ p :: post).length = 0 ∧ ("" : String) = "") := by simp
  unfold runProcessFile
  dsimp only [resolveContent]
  rw [if_neg hcond, hw, h1]
  dsimp only
  rw [hseg]
  refine ⟨rfl, rfl, ?_, h3⟩
  rw [List.nil_append, h2, List.range_eq_range']

/-- C1, witness for the amended theorem at a concrete 3-page document. -/
theorem c1_witness :
    (runProcessFile (sampleJob "j1w") (.ok ())
        (.image ([okPage "a"] ++ failPage "net down" :: [okPage "c"])) 9).job.status = .error ∧
    (runProcessFile (sampleJob "j1w") (.ok ())
        (.image ([okPage "a"] ++ failPage "net down" :: [okPage "c"])) 9).job.error
      = some "net down" ∧
    (runProcessFile (sampleJob "j1w") (.ok ())
        (.image ([okPage "a"] ++ failPage "net down" :: [okPage "c"])) 9).job.segments.map
          (fun s => s.pageIndex) = List.range 1 ∧
    (runProcessFile (sampleJob "j1w") (.ok ())
        (.image ([okPage "a"] ++ failPage "net down" :: [okPage "c"])) 9).job.warnings = [] :=
  c1_theorem (sampleJob "j1w") 9 [okPage "a"] [okPage "c"] (failPage "net down") "net down"
    (by decide) (by decide) (by decide) (by decide)

/-- C4: a job whose document resolves to zero pages and no extracted text
finishes `completed` (not `error`), with empty output (no segments beyond
those it started with — none, for a real job — and empty extracted text),
progress 1, and the empty-content warning appended to the warnings
accumulated during resolution. -/
theorem c4_theorem (job : OcrJob) (now : Nat) (content : FileContent) (w0 : List String)
    (hres : resolveContent content = .ok ([], "", w0)) :
    (runProcessFile job (.ok ()) content now).job.status = .completed ∧
    (runProcessFile job (.ok ()) content now).job.warnings
      = w0 ++ [noVisualContentWarning] ∧
    (runProcessFile job (.ok ()) content now).job.segments = job.segments ∧
    (runProcessFile job (.ok ()) content now).job.extractedText = "" ∧
    (runProcessFile job (.ok ()) content now).job.progress = 1 ∧
    (runProcessFile job (.ok ()) content now).job.error = none ∧
    (runProcessFile job (.ok ()) content now).job.completedAt = some now ∧
    (runProcessFile job (.ok ()) content now).progressTrace = [0, 1] := by
  simp [runProcessFile, hres, pageLoop]

/-- C4, witness: a DOCX with no text and no embedded images completes
with both the no-embedded-images warning and the empty-content warning. -/
theorem c4_witness :
    (runProcessFile (sampleJob "j4") (.ok ()) (.docx "" []) 3).job.status = .completed ∧
    (runProcessFile (sampleJob "j4") (.ok ()) (.docx "" []) 3).job.warnings
      = [noEmbeddedImagesWarning] ++ [noVisualContentWarning] ∧
    (runProcessFile (sampleJob "j4") (.ok ()) (.docx "" []) 3).job.segments
      = (sampleJob "j4").segments ∧
    (runProcessFile (sampleJob "j4") (.ok ()) (.docx "" []) 3).job.extractedText = "" ∧
    (runProcessFile (sampleJob "j4") (.ok ()) (.docx "" []) 3).job.progress = 1 ∧
    (runProcessFile (sampleJob "j4") (.ok ()) (.docx "" []) 3).job.error = none ∧
    (runProcessFile (sampleJob "j4") (.ok ()) (.docx "" []) 3).job.completedAt = some 3 ∧
    (runProcessFile (sampleJob "j4") (.ok ()) (.docx "" []) 3).progressTrace = [0, 1] :=
  c4_theorem (sampleJob "j4") 3 (.docx "" []) [noEmbeddedImagesWarning] rfl

/-- An unsupported submission (plain text file), used as concrete input. -/
def txtFile : FileMeta :=
  { name := "notes.txt", type := "text/plain", size := 10, content := .unsupported }

/-- C5, counterexample.  Submitting a single file of an unrecognized
content class: the claim says the submission fails with `InvalidInput`
and no Job is created, but `handleFiles` prepends a synthetic Job record
to the job table — with status `error`, name "Unsupported files" and a
message listing the file, not any `InvalidInput` failure — so a Job *is*
created.  (The empty-language arm of the claim is likewise unchecked at
intake; see the amended theorem.) -/
theorem c5_counterexample :
    (handleFiles (fun n => "id" ++ toString n) ["eng"] 0 [txtFile]
        { jobs := [], fileMap := [] }).jobs.length = 1 ∧
    (handleFiles (fun n => "id" ++ toString n) ["eng"] 0 [txtFile]
        { jobs := [], fileMap := [] }).jobs.map (fun j => j.status) = [.error] ∧
    (handleFiles (fun n => "id" ++ toString n) ["eng"] 0 [txtFile]
        { jobs := [], fileMap := [] }).jobs.map (fun j => j.error)
      = [some "Unsupported files: notes.txt"] := by
  decide

/-- C5, amended: an all-unsupported submission is not admitted for
processing — no pending job and no file mapping is created — but it does
add exactly one synthetic `error` Job entry listing the rejected names
(there is no `InvalidInput` channel).  An empty language set is never
validated at intake; instead it is made unreachable upstream:
`handleLanguageToggle` refuses to drop the last selected language, so a
non-empty selection stays non-empty. -/
theorem c5_theorem :
    (∀ (newId : Nat → String) (selected : List String) (now : Nat)
        (files : List FileMeta) (s : AppState),
      (∀ f ∈ files, isSupportedFile f = false) → files ≠ [] →
      handleFiles newId selected now files s =
        { jobs := unsupportedFilesJob (newId 0) selected now (files.map (fun f => f.name))
            :: s.jobs,
          fileMap := s.fileMap }) ∧
    (∀ (code : String) (prev : List String), prev ≠ [] →
      handleLanguageToggle code prev ≠ []) := by
  constructor
  · intro newId selected now files s hall hne
    have haccept : files.filter isSupportedFile = [] :=
      List.filter_eq_nil_iff.mpr (fun f hf => by simp [hall f hf])
    have hreject : files.filter (fun f => !(isSupportedFile f)) = files :=
      List.filter_eq_self.mpr (fun f hf => by simp [hall f hf])
    have hlen : 0 < files.length := List.length_pos.mpr hne
    simp [handleFiles, haccept, hreject, hlen]
  · intro code prev hne
    unfold handleLanguageToggle
    by_cases hmem : prev.contains code
    · simp only [hmem, if_true]
      by_cases hlen : (prev.filter (fun item => item != code)).length > 0
      · simp only [hlen, if_true]
        exact List.ne_nil_of_length_pos hlen
      · simp only [hlen, if_false]
        exact hne
    · simp only [hmem, if_false]
      simp

/-- C5, witness for the amended theorem: one unsupported file against an
empty table, and a toggle on the last selected language. -/
theorem c5_witness :
    handleFiles (fun n => "id" ++ toString n) ["eng"] 0 [txtFile]
        { jobs := [], fileMap := [] } =
      { jobs := [unsupportedFilesJob "id0" ["eng"] 0 ["notes.txt"]], fileMap := [] } ∧
    handleLanguageToggle "eng" ["eng"] ≠ [] :=
  ⟨by
    have h := c5_theorem.1 (fun n => "id" ++ toString n) ["eng"] 0 [txtFile]
      { jobs := [], fileMap := [] } (by decide) (by decide)
    simpa using h,
   c5_theorem.2 "eng" ["eng"] (by decide)⟩

/-- A key filtered out of an association list can no longer be looked up. -/
theorem lookup_filter_ne {β : Type} (k : String) (l : List (String × β)) :
    (l.filter (fun p => p.1 != k)).lookup k = none := by
  induction l with
  | nil => rfl
  | cons a l ih =>
    obtain ⟨a1, a2⟩ := a
    by_cases hak : a1 = k
    · simp [List.filter_cons, hak, ih]
    · have hbeq : (k == a1) = false := beq_eq_false_iff_ne.mpr (Ne.symm hak)
      simp [List.filter_cons, hak, List.lookup, ih, hbeq]

/-- C6, counterexample.  The claim says dispatching a job whose status is
not `pending` is a no-op.  `processFile` checks only that the job exists
and that its file mapping is present — not the status — so dispatching a
`processing` job that still has its file re-executes it and changes the
state (here: the job is re-run to completion and its file mapping is
deleted). -/
theorem c6_counterexample :
    processFile "j6" (.ok ()) 5
        { jobs := [{ sampleJob "j6" with status := .processing }],
          fileMap := [("j6", .image [])] } ≠
      { jobs := [{ sampleJob "j6" with status := .processing }],
        fileMap := [("j6", .image [])] } ∧
    (processFile "j6" (.ok ()) 5
        { jobs := [{ sampleJob "j6" with status := .processing }],
          fileMap := [("j6", .image [])] }).jobs.map (fun j => j.status)
      = [.completed] := by
  decide

/-- C6, amended: the driver's no-op guard is keyed on the file mapping
(and the job's existence), not on the status: dispatching a job id with
no file mapping leaves the state unchanged, and since a run deletes the
job's file mapping in its `finally`, dispatching the same job id a second
time after a completed dispatch is always a no-op — but a dispatch while
the job still has its file re-executes it regardless of status. -/
theorem c6_theorem :
    (∀ (jobId : String) (e : Except String Unit) (now : Nat) (s : AppState),
      s.fileMap.lookup jobId = none → processFile jobId e now s = s) ∧
    (∀ (jobId : String) (e e' : Except String Unit) (now now' : Nat) (s : AppState),
      processFile jobId e' now' (processFile jobId e now s) = processFile jobId e now s) := by
  have hnofile : ∀ (jobId : String) (e : Except String Unit) (now : Nat) (s : AppState),
      s.fileMap.lookup jobId = none → processFile jobId e now s = s := by
    intro jobId e now s h
    unfold processFile
    rcases hf : s.jobs.find? (fun j => j.id == jobId) with _ | job
    · rw [hf]
    · rw [hf, h]
  refine ⟨hnofile, ?_⟩
  intro jobId e e' now now' s
  rcases hf : s.jobs.find? (fun j => j.id == jobId) with _ | job
  · have hs : processFile jobId e now s = s := by unfold processFile; rw [hf]
    rw [hs]
    unfold processFile
    rw [hf]
  · rcases hl : s.fileMap.lookup jobId with _ | content
    · have hs : processFile jobId e now s = s := by unfold processFile; rw [hf, hl]
      rw [hs]
      unfold processFile
      rw [hf, hl]
    · have hfm : (processFile jobId e now s).fileMap
          = s.fileMap.filter (fun p => p.1 != jobId) := by
        unfold processFile
        rw [hf, hl]
      exact hnofile jobId e' now' _ (by rw [hfm]; exact lookup_filter_ne jobId s.fileMap)

/-- C6, witness for the amended theorem: a dispatch with no file mapping
is a no-op, and an immediate re-dispatch of a dispatched job id changes
nothing. -/
theorem c6_witness :
    processFile "jx" (.ok ()) 0 { jobs := [sampleJob "jx"], fileMap := [] }
      = { jobs := [sampleJob "jx"], fileMap := [] } ∧
    processFile "j6" (.error "offline") 8
        (processFile "j6" (.ok ()) 5
          { jobs := [sampleJob "j6"], fileMap := [("j6", .image [okPage "a"])] })
      = processFile "j6" (.ok ()) 5
          { jobs := [sampleJob "j6"], fileMap := [("j6", .image [okPage "a"])] } :=
  ⟨c6_theorem.1 "jx" (.ok ()) 0 { jobs := [sampleJob "jx"], fileMap := [] } rfl,
   c6_theorem.2 "j6" (.ok ()) (.error "offline") 5 8
     { jobs := [sampleJob "j6"], fileMap := [("j6", .image [okPage "a"])] }⟩

/-- The built-in English entry of the language registry.  Modelled from
the spec: built-in artifacts are registered at start with their code,
label and storage path. -/
def engOption : LanguageOption :=
  { code := "eng", label := "English", path := "/tesseract/eng.traineddata", builtIn := true }

/-- C7, counterexample.  Importing an artifact under the code `eng` while
`eng` is already registered: the claim says the existing registry entry
is replaced so each code maps to at most one artifact, but
`handleLanguageImport` appends `[...prev, option]` without removing the
old entry — afterwards two registered artifacts carry the code `eng`. -/
theorem c7_counterexample :
    ((handleLanguageImport true "eng" (.ok "blob:eng2")
        { availableLanguages := [engOption],
          selectedLanguages := ["eng"] }).availableLanguages.filter
        (fun l => l.code == "eng")).length = 2 := by
  decide

/-- C7, amended: a successful import appends a new entry for the
lower-cased code to the registry, leaving every existing entry in place —
so importing an already-registered code yields duplicate entries for that
code rather than replacing the mapping — and because lookups scan
front-to-back (`find`), the original registration keeps shadowing the
newly imported one. -/
theorem c7_theorem (s : LangState) (input path : String)
    (h1 : jsTrim input ≠ "")
    (h2 : (s.availableLanguages.find? (fun l => l.code == jsToLower input)).isSome = true) :
    (handleLanguageImport true input (.ok path) s).availableLanguages
      = s.availableLanguages
        ++ [{ code := jsToLower input, label := jsToUpper (jsToLower input),
              path := path, builtIn := false }] ∧
    (handleLanguageImport true input (.ok path) s).availableLanguages.find?
        (fun l => l.code == jsToLower input)
      = s.availableLanguages.find? (fun l => l.code == jsToLower input) := by
  have hbe : (jsTrim input == "") = false := beq_eq_false_iff_ne.mpr h1
  constructor
  · simp [handleLanguageImport, importLanguageFromFile, hbe, Except.map]
  · simp only [handleLanguageImport, importLanguageFromFile, hbe, Bool.not_true,
      Bool.false_or, Bool.false_eq_true, if_false, Except.map]
    rw [List.find?_append]
    rcases hfind : s.availableLanguages.find? (fun l => l.code == jsToLower input) with _ | v
    · rw [hfind] at h2
      simp at h2
    · rw [hfind]
      rfl

/-- C7, witness for the amended theorem: importing `eng` over a registry
that already holds `eng`. -/
theorem c7_witness :
    (handleLanguageImport true "eng" (.ok "blob:eng2")
        { availableLanguages := [engOption], selectedLanguages := ["eng"] }).availableLanguages
      = [engOption]
        ++ [{ code := jsToLower "eng", label := jsToUpper (jsToLower "eng"),
              path := "blob:eng2", builtIn := false }] ∧
    (handleLanguageImport true "eng" (.ok "blob:eng2")
        { availableLanguages := [engOption],
          selectedLanguages := ["eng"] }).availableLanguages.find?
        (fun l => l.code == jsToLower "eng")
      = [engOption].find? (fun l => l.code == jsToLower "eng") :=
  c7_theorem { availableLanguages := [engOption], selectedLanguages := ["eng"] }
    "eng" "blob:eng2" (by decide) (by decide)

/-- A handler that has observed a miss and not yet resolved its fetch. -/
def isFetchingHandler : HandlerPhase × FetchOutcome → Bool
  | (.fetching, _) => true
  | _ => false

/-- A handler past its `cache.match` lookup. -/
def isStartedHandler : HandlerPhase × FetchOutcome → Bool
  | (.matching, _) => false
  | _ => true

/-- Accounting invariant of the service-worker machine: every issued
fetch, and every pending one, is accounted to a handler that is past its
cache lookup. -/
def swInv (s : SWState) : Prop :=
  s.fetchCount + s.handlers.countP isFetchingHandler ≤ s.handlers.countP isStartedHandler

/-- `countP` after overwriting one position, in additive form. -/
theorem countP_set_add {α : Type} (p : α → Bool) :
    ∀ (l : List α) (i : Nat) (a b : α), l[i]? = some b →
      (l.set i a).countP p + (if p b then 1 else 0)
        = l.countP p + (if p a then 1 else 0) := by
  intro l
  induction l with
  | nil => intro i a b h; simp at h
  | cons x xs ih =>
    intro i a b h
    cases i with
    | zero =>
      simp only [List.getElem?_cons_zero] at h
      injection h with h
      subst h
      simp only [List.set, List.countP_cons]
      omega
    | succ n =>
      simp only [List.getElem?_cons_succ] at h
      have := ih n a b h
      simp only [List.set, List.countP_cons]
      omega

/-- One step preserves the number of handlers. -/
theorem swStep_length (s : SWState) (i : Nat) :
    (swStep s i).handlers.length = s.handlers.length := by
  rcases h : s.handlers[i]? with _ | ⟨phase, outcome⟩
  · simp [swStep, h]
  · cases phase with
    | matching =>
      rcases hc : s.cache with _ | st <;> simp [swStep, h, hc, List.length_set]
    | fetching =>
      cases outcome <;> simp [swStep, h, List.length_set]
    | done st fc => simp [swStep, h]

/-- One step preserves the accounting invariant. -/
theorem swStep_inv (s : SWState) (i : Nat) (hinv : swInv s) : swInv (swStep s i) := by
  unfold swInv at hinv ⊢
  rcases h : s.handlers[i]? with _ | ⟨phase, outcome⟩
  · simpa [swStep, h] using hinv
  · cases phase with
    | matching =>
      rcases hc : s.cache with _ | st
      · have h1 := countP_set_add isFetchingHandler s.handlers i (.fetching, outcome) _ h
        have h2 := countP_set_add isStartedHandler s.handlers i (.fetching, outcome) _ h
        simp only [swStep, List.get?_eq_getElem?, h, hc]
        simp only [isFetchingHandler, isStartedHandler] at h1 h2
        simp at h1 h2
        omega
      · have h1 := countP_set_add isFetchingHandler s.handlers i (.done st true, outcome) _ h
        have h2 := countP_set_add isStartedHandler s.handlers i (.done st true, outcome) _ h
        simp only [swStep, List.get?_eq_getElem?, h, hc]
        simp only [isFetchingHandler, isStartedHandler] at h1 h2
        simp at h1 h2
        omega
    | fetching =>
      rcases outcome with st | _
      · have h1 := countP_set_add isFetchingHandler s.handlers i (.done st false, .response st) _ h
        have h2 := countP_set_add isStartedHandler s.handlers i (.done st false, .response st) _ h
        simp only [swStep, List.get?_eq_getElem?, h]
        simp only [isFetchingHandler, isStartedHandler] at h1 h2
        simp at h1 h2
        omega
      · have h1 := countP_set_add isFetchingHandler s.handlers i (.done 503 false, .netFailure) _ h
        have h2 := countP_set_add isStartedHandler s.handlers i (.done 503 false, .netFailure) _ h
        simp only [swStep, List.get?_eq_getElem?, h]
        simp only [isFetchingHandler, isStartedHandler] at h1 h2
        simp at h1 h2
        omega
    | done st fc => simpa [swStep, h] using hinv

/-- A whole schedule preserves the accounting invariant. -/
theorem swRun_inv : ∀ (sched : List Nat) (s : SWState), swInv s → swInv (swRun s sched) := by
  intro sched
  induction sched with
  | nil => intro s h; exact h
  | cons i rest ih =>
    intro s h
    exact ih (swStep s i) (swStep_inv s i h)

/-- A whole schedule preserves the number of handlers. -/
theorem swRun_length : ∀ (sched : List Nat) (s : SWState),
    (swRun s sched).handlers.length = s.handlers.length := by
  intro sched
  induction sched with
  | nil => intro s; rfl
  | cons i rest ih =>
    intro s
    calc (swRun (swStep s i) rest).handlers.length
        = (swStep s i).handlers.length := ih (swStep s i)
      _ = s.handlers.length := swStep_length s i

/-- C2, counterexample.  Two concurrent requests for the same uncached
artifact key, interleaved so that both `cache.match` lookups run before
either fetch resolves (schedule 0,1,0,1): the claim says exactly one
underlying fetch is issued and both callers observe the same outcome, but
the service worker has no in-flight de-duplication — two fetches are
issued, and with independent network outcomes one caller gets a 200 while
the other gets the synthetic 503. -/
theorem c2_counterexample :
    (swRun (swInit [.response 200, .netFailure]) [0, 1, 0, 1]).fetchCount = 2 ∧
    (swRun (swInit [.response 200, .netFailure]) [0, 1, 0, 1]).handlers.map Prod.fst
      = [.done 200 false, .done 503 false] := by
  decide

/-- C2, amended: each concurrent caller issues at most one fetch — so `N`
concurrent requests for an uncached key issue at most `N` underlying
fetches, not exactly one — a caller whose `cache.match` hits never
fetches, and once one caller's fetch has resolved and been cached,
callers that look up afterwards are served from the cache without a new
fetch (shown by the serialized schedule 0,0,1); the callers' outcomes are
otherwise independent. -/
theorem c2_theorem :
    (∀ (outcomes : List FetchOutcome) (sched : List Nat),
      (swRun (swInit outcomes) sched).fetchCount ≤ outcomes.length) ∧
    ((swRun (swInit [.response 200, .response 200]) [0, 0, 1]).fetchCount = 1 ∧
      (swRun (swInit [.response 200, .response 200]) [0, 0, 1]).handlers.map Prod.fst
        = [.done 200 false, .done 200 true]) := by
  refine ⟨?_, by decide, by decide⟩
  intro outcomes sched
  have hinv0 : swInv (swInit outcomes) := by
    unfold swInv swInit
    simp only [List.countP_map]
    have h1 : List.countP (isFetchingHandler ∘ fun o => (HandlerPhase.matching, o)) outcomes
        = 0 := by
      rw [List.countP_eq_zero]
      intro o _
      simp [isFetchingHandler]
    simp [h1]
  have hinv := swRun_inv sched _ hinv0
  unfold swInv at hinv
  have hlen := swRun_length sched (swInit outcomes)
  have hle := List.countP_le_length isStartedHandler
    (l := (swRun (swInit outcomes) sched).handlers)
  have hlen0 : (swInit outcomes).handlers.length = outcomes.length := by
    simp [swInit]
  omega

/-- C3: the claim holds for network-level failures — a rejected fetch
caches nothing and the next request for the key fetches anew (second
scenario) — but the code calls `cache.put` on every *resolved* response
without checking its status, so a fetch answered with HTTP 404 (the
artifact is missing: `ArtifactFetchFailed` in the spec's taxonomy) is
stored in the cache and served to the next request with no new fetch
(first scenario): that failure *is* served from the cache. -/
theorem c3_theorem :
    ((swRun (swInit [.response 404, .response 200]) [0, 0, 1]).cache = some 404 ∧
      (swRun (swInit [.response 404, .response 200]) [0, 0, 1]).fetchCount = 1 ∧
      (swRun (swInit [.response 404, .response 200]) [0, 0, 1]).handlers.map Prod.fst
        = [.done 404 false, .done 404 true]) ∧
    ((swRun (swInit [.netFailure, .response 200]) [0, 0, 1, 1]).cache = some 200 ∧
      (swRun (swInit [.netFailure, .response 200]) [0, 0, 1, 1]).fetchCount = 2 ∧
      (swRun (swInit [.netFailure, .response 200]) [0, 0, 1, 1]).handlers.map Prod.fst
        = [.done 503 false, .done 200 false]) := by
  decide

/-- When the page loop runs to completion (no page threw), it appended
exactly one segment per page, in order, carrying the page indices
`i, i+1, …, i+n-1`. -/
theorem pageLoop_segments_of_no_failure (d : ℚ) :
    ∀ (pages : List PageRun) (i : Nat) (w ws : List String),
      (pageLoop d i w ws pages).failure = none →
      (pageLoop d i w ws pages).segments.map (fun s => s.pageIndex)
        = List.range' i pages.length := by
  intro pages
  induction pages with
  | nil => intro i w ws _; simp [pageLoop]
  | cons page rest ih =>
    intro i w ws h
    rcases houtcome : page.outcome with ⟨t, c⟩ | m
    · simp only [pageLoop, houtcome] at h ⊢
      rw [List.length_cons, List.range'_succ]
      simp only [List.map_cons, List.cons.injEq]
      exact ⟨trivial, ih _ _ _ h⟩
    · simp [pageLoop, houtcome] at h

/-- The sort inside `combineSegments` orders segments by ascending page
index. -/
theorem sortSegments_pairwise (segments : List RecognizedSegment) :
    List.Pairwise (fun a b : RecognizedSegment => a.pageIndex ≤ b.pageIndex)
      (sortSegments segments) := by
  haveI : IsTotal RecognizedSegment (fun a b => a.pageIndex ≤ b.pageIndex) :=
    ⟨fun a b => Nat.le_total a.pageIndex b.pageIndex⟩
  haveI : IsTrans RecognizedSegment (fun a b => a.pageIndex ≤ b.pageIndex) :=
    ⟨fun _ _ _ hab hbc => Nat.le_trans hab hbc⟩
  exact List.sorted_insertionSort (fun a b => a.pageIndex ≤ b.pageIndex) segments

/-- The sort inside `combineSegments` keeps exactly the given segments. -/
theorem sortSegments_perm (segments : List RecognizedSegment) :
    (sortSegments segments).Perm segments :=
  List.perm_insertionSort (fun a b : RecognizedSegment => a.pageIndex ≤ b.pageIndex) segments

/-- C9: a job that finishes `completed` carries exactly one segment per
page of its document — their page indices are `0, …, pageCount-1` in
order, hence a duplicate-free subset of `{0, …, pageCount-1}` — and the
display/export order produced by `combineSegments`' sort is ascending
page index whatever order the segment list is in. -/
theorem c9_theorem (job : OcrJob) (ensureOutcome : Except String Unit)
    (content : FileContent) (now : Nat) (pages : List PageRun) (txt : String)
    (w0 : List String)
    (hres : resolveContent content = .ok (pages, txt, w0))
    (hseg : job.segments = [])
    (hc : (runProcessFile job ensureOutcome content now).job.status = .completed) :
    (runProcessFile job ensureOutcome content now).job.segments.map (fun s => s.pageIndex)
      = List.range pages.length ∧
    ((runProcessFile job ensureOutcome content now).job.segments.map
      (fun s => s.pageIndex)).Nodup ∧
    (runProcessFile job ensureOutcome content now).job.segments.map (fun s => s.pageIndex)
      ⊆ List.range pages.length ∧
    List.Pairwise (fun a b : RecognizedSegment => a.pageIndex ≤ b.pageIndex)
      (sortSegments (runProcessFile job ensureOutcome content now).job.segments) := by
  rcases ensureOutcome with m | u
  · exfalso
    simp [runProcessFile] at hc
  · unfold runProcessFile at hc ⊢
    rw [hres] at hc ⊢
    dsimp only at hc ⊢
    split at hc
    · simp at hc
    · rename_i heq
      have hsegs := pageLoop_segments_of_no_failure (pageDenominator pages.length)
        pages 0 _ _ heq
      dsimp only
      rw [hseg, List.nil_append, hsegs, ← List.range_eq_range']
      exact ⟨rfl, List.nodup_range pages.length, List.Subset.refl _,
        sortSegments_pairwise _⟩

/-- C9, witness: a two-page image document whose pages both succeed. -/
theorem c9_witness :
    (runProcessFile (sampleJob "j9") (.ok ()) (.image [okPage "a", okPage "b"]) 1).job.segments.map
        (fun s => s.pageIndex) = List.range 2 ∧
    ((runProcessFile (sampleJob "j9") (.ok ()) (.image [okPage "a", okPage "b"]) 1).job.segments.map
        (fun s => s.pageIndex)).Nodup ∧
    (runProcessFile (sampleJob "j9") (.ok ()) (.image [okPage "a", okPage "b"]) 1).job.segments.map
        (fun s => s.pageIndex) ⊆ List.range 2 ∧
    List.Pairwise (fun a b : RecognizedSegment => a.pageIndex ≤ b.pageIndex)
      (sortSegments (runProcessFile (sampleJob "j9") (.ok ())
        (.image [okPage "a", okPage "b"]) 1).job.segments) :=
  c9_theorem (sampleJob "j9") (.ok ()) (.image [okPage "a", okPage "b"]) 1
    [okPage "a", okPage "b"] "" [] rfl rfl (by decide)

/-- C10, counterexample.  A 2-page document whose second page's
recognition fails leaves a job holding only the segment for page index 0.
Its one exported line is headed "Page 1": the displayed number (its
position plus one) equals its page index plus one even though the segment
for page index 1 is missing — refuting the claim's "equals its original
page index plus one *only when* no segment is missing". -/
theorem c10_counterexample :
    segmentLines (runProcessFile (sampleJob "j10") (.ok ())
        (.image [okPage "x", failPage "later"]) 2).job.segments
      = ["--- Page 1 (Confidence: 90.00%) ---\nx\n"] ∧
    (runProcessFile (sampleJob "j10") (.ok ())
        (.image [okPage "x", failPage "later"]) 2).job.segments.map (fun s => s.pageIndex)
      = [0] ∧
    ¬ ((runProcessFile (sampleJob "j10") (.ok ())
        (.image [okPage "x", failPage "later"]) 2).job.segments.map
          (fun s => s.pageIndex)).contains 1 := by
  decide

/-- C10, amended: the i-th line of the exported text (segments sorted by
ascending page index) is always headed "Page i+1" — the position among
the present segments, regardless of the segment's own page index — and
the displayed numbers coincide with pageIndex+1 for every segment exactly
when the present page indices form the contiguous initial range
`0, …, k-1` (in particular whenever no segment of the document is
missing). -/
theorem c10_theorem :
    (∀ (segments : List RecognizedSegment) (i : Nat)
        (h : i < (sortSegments segments).length),
      (segmentLines segments).get? i
        = some ("--- Page " ++ toString (i + 1) ++ " (Confidence: "
            ++ toFixed2 ((sortSegments segments).get ⟨i, h⟩).confidence ++ "%) ---\n"
            ++ jsTrim ((sortSegments segments).get ⟨i, h⟩).text ++ "\n")) ∧
    (∀ segments : List RecognizedSegment,
      (sortSegments segments).map (fun s => s.pageIndex) = List.range segments.length
        ↔ ∀ (i : Nat) (h : i < (sortSegments segments).length),
            ((sortSegments segments).get ⟨i, h⟩).pageIndex = i) := by
  constructor
  · intro segments i h
    have hlen : i < (segmentLines segments).length := by
      simpa [segmentLines, List.length_mapIdx] using h
    rw [List.get?_eq_get hlen]
    unfold segmentLines at hlen ⊢
    rw [List.get_mapIdx (sortSegments segments) renderSegment i h]
    rfl
  · intro segments
    have hslen : (sortSegments segments).length = segments.length :=
      (sortSegments_perm segments).length_eq
    constructor
    · intro heq i h
      have h2 : i < ((sortSegments segments).map (fun s => s.pageIndex)).length := by
        simpa [List.length_map] using h
      have h3 : i < (List.range segments.length).length := by
        simpa [List.length_range, ← hslen] using h
      have := congrArg (fun l => l.get? i) heq
      dsimp only at this
      rw [List.get?_eq_get h2, List.get?_eq_get h3] at this
      injection this with this
      rw [List.get_map, List.get_range] at this
      simpa using this
    · intro hpt
      apply List.ext_get
      · simp [List.length_map, List.length_range, hslen]
      · intro n h1 h2
        rw [List.get_map, List.get_range]
        exact hpt n _

/-- C10, witness for the amended theorem at a one-segment list. -/
theorem c10_witness :
    (segmentLines [{ pageIndex := 0, text := "hello", confidence := 90 }]).get? 0
      = some ("--- Page " ++ toString (0 + 1) ++ " (Confidence: "
          ++ toFixed2 ((sortSegments [{ pageIndex := 0, text := "hello", confidence := 90 }]).get
              ⟨0, by decide⟩).confidence ++ "%) ---\n"
          ++ jsTrim ((sortSegments [{ pageIndex := 0, text := "hello", confidence := 90 }]).get
              ⟨0, by decide⟩).text ++ "\n") ∧
    ((sortSegments [{ pageIndex := 0, text := "hello", confidence := 90 }]).map
        (fun s => s.pageIndex)
      = List.range [({ pageIndex := 0, text := "hello", confidence := 90 } :
          RecognizedSegment)].length
        ↔ ∀ (i : Nat)
            (h : i < (sortSegments [{ pageIndex := 0, text := "hello", confidence := 90 }]).length),
            ((sortSegments [{ pageIndex := 0, text := "hello", confidence := 90 }]).get
              ⟨i, h⟩).pageIndex = i) :=
  ⟨c10_theorem.1 [{ pageIndex := 0, text := "hello", confidence := 90 }] 0 (by decide),
   c10_theorem.2 [{ pageIndex := 0, text := "hello", confidence := 90 }]⟩

/-- The contract of the recognition engine's progress channel (spec §4.4):
within one page it reports completion fractions in `[0,1]`, and a
completion fraction does not go backwards. -/
def ValidPageEvents (p : PageRun) : Prop :=
  p.progressEvents.Chain' (· ≤ ·) ∧ ∀ f ∈ p.progressEvents, 0 ≤ f ∧ f ≤ 1

/-- The page loop's progress writes are non-decreasing, start no lower
than `i/d`, and stay below `(i + pages)/d`, provided each page's
intra-page fractions are monotone and within `[0,1]`. -/
theorem pageLoop_progress_mono (d : ℚ) (hd : 0 < d) :
    ∀ (pages : List PageRun) (i : Nat) (w ws : List String),
      (∀ p ∈ pages, ValidPageEvents p) →
      List.Chain' (· ≤ ·) (((i : ℚ) / d) :: (pageLoop d i w ws pages).progressWrites) ∧
      ∀ x ∈ (pageLoop d i w ws pages).progressWrites,
        x ≤ ((i : ℚ) + pages.length) / d := by
  intro pages
  induction pages with
  | nil =>
    intro i w ws _
    constructor
    · simp [pageLoop]
    · simp [pageLoop]
  | cons page rest ih =>
    intro i w ws hvalid
    obtain ⟨hchain, hbounds⟩ := hvalid page (by simp)
    have hrest : ∀ p ∈ rest, ValidPageEvents p := fun p hp => hvalid p (by simp [hp])
    have hmapchain : List.Chain' (· ≤ ·)
        (page.progressEvents.map (fun f => ((i : ℚ) + f) / d)) := by
      rw [List.chain'_map]
      exact hchain.imp (fun a b hab => (div_le_div_right hd).mpr (by linarith))
    have hhead : ∀ y ∈ (page.progressEvents.map (fun f => ((i : ℚ) + f) / d)).head?,
        (i : ℚ) / d ≤ y := by
      intro y hy
      obtain ⟨f, hf, rfl⟩ := List.mem_map.mp (List.mem_of_mem_head? hy)
      exact (div_le_div_right hd).mpr (by have := (hbounds f hf).1; linarith)
    have hcw_chain : List.Chain' (· ≤ ·)
        (((i : ℚ) / d) :: page.progressEvents.map (fun f => ((i : ℚ) + f) / d)) :=
      List.chain'_cons'.mpr ⟨hhead, hmapchain⟩
    have hcw_le : ∀ x ∈ page.progressEvents.map (fun f => ((i : ℚ) + f) / d),
        x ≤ ((i : ℚ) + 1) / d := by
      intro x hx
      obtain ⟨f, hf, rfl⟩ := List.mem_map.mp hx
      exact (div_le_div_right hd).mpr (by have := (hbounds f hf).2; linarith)
    have hstep : ((i : ℚ) + 1) / d ≤ ((i : ℚ) + (page :: rest).length) / d := by
      apply (div_le_div_right hd).mpr
      rw [List.length_cons]
      push_cast
      linarith [Nat.cast_nonneg (α := ℚ) rest.length]
    rcases houtcome : page.outcome with ⟨t, c⟩ | m
    · obtain ⟨ih1, ih2⟩ := ih (i + 1) (w ++ (durationWarning i page.duration).toList)
        (w ++ (durationWarning i page.duration).toList) hrest
      have hcast : (((i + 1 : ℕ)) : ℚ) = (i : ℚ) + 1 := by push_cast; ring
      rw [hcast] at ih1 ih2
      constructor
      · simp only [pageLoop, houtcome]
        rw [← List.cons_append]
        rw [List.chain'_append]
        refine ⟨hcw_chain, ih1, ?_⟩
        intro x hx y hy
        simp only [List.head?_cons, Option.mem_def, Option.some.injEq] at hy
        subst hy
        rcases List.mem_cons.mp (mem_of_mem_getLast? hx) with rfl | hxm
        · exact (div_le_div_right hd).mpr (by linarith)
        · exact hcw_le x hxm
      · intro x hx
        simp only [pageLoop, houtcome] at hx
        rcases List.mem_append.mp hx with hx1 | hx2
        · exact le_trans (hcw_le x hx1) hstep
        · rcases List.mem_cons.mp hx2 with rfl | hx3
          · exact hstep
          · refine le_trans (ih2 x hx3) ?_
            apply (div_le_div_right hd).mpr
            rw [List.length_cons]
            push_cast
            linarith
    · constructor
      · simp only [pageLoop, houtcome]
        exact hcw_chain
      · intro x hx
        simp only [pageLoop, houtcome] at hx
        exact le_trans (hcw_le x hx) hstep

/-- C8: the sequence of values a job's `progress` field takes between
dispatch and its terminal state — the initial 0, the per-page callback
fractions `(index + f)/n`, the per-page completions `(index+1)/n` and
the final 1 on completion — is non-decreasing, because pages run
strictly in index order and each page's intra-page fractions are
monotone completion fractions in `[0,1]` (the engine contract). -/
theorem c8_theorem (job : OcrJob) (ensureOutcome : Except String Unit)
    (content : FileContent) (now : Nat)
    (h : ∀ p ∈ contentPages content, ValidPageEvents p) :
    List.Chain' (· ≤ ·) ((runProcessFile job ensureOutcome content now).progressTrace) := by
  rcases ensureOutcome with m | u
  · simp [runProcessFile]
  · rcases hres : resolveContent content with m | ⟨pages, txt, w0⟩
    · simp [runProcessFile, hres]
    · have hpages : contentPages content = pages := by simp [contentPages, hres]
      rw [hpages] at h
      have hd : 0 < pageDenominator pages.length := by
        unfold pageDenominator
        split
        · norm_num
        · rename_i hne
          exact_mod_cast Nat.pos_of_ne_zero hne
      obtain ⟨hchain, hbound⟩ := pageLoop_progress_mono (pageDenominator pages.length) hd
        pages 0
        (if pages.length = 0 ∧ txt = "" then w0 ++ [noVisualContentWarning] else w0)
        job.warnings h
      have h0 : (((0 : ℕ)) : ℚ) / pageDenominator pages.length = 0 := by simp
      rw [h0] at hchain
      have hfrac : ((pages.length : ℚ)) / pageDenominator pages.length ≤ 1 := by
        unfold pageDenominator
        rcases Nat.eq_zero_or_pos pages.length with hz | hpos
        · simp [hz]
        · rw [if_neg (Nat.pos_iff_ne_zero.mp hpos)]
          rw [div_self (ne_of_gt (by exact_mod_cast hpos))]
      unfold runProcessFile
      rw [hres]
      dsimp only
      split
      · dsimp only
        exact hchain
      · dsimp only
        have : List.Chain' (· ≤ ·)
            (((0 : ℚ) :: (pageLoop (pageDenominator pages.length) 0
              (if pages.length = 0 ∧ txt = "" then w0 ++ [noVisualContentWarning] else w0)
              job.warnings pages).progressWrites) ++ [1]) := by
          rw [List.chain'_append]
          refine ⟨hchain, List.chain'_singleton 1, ?_⟩
          intro x hx y hy
          simp only [List.head?_cons, Option.mem_def, Option.some.injEq] at hy
          subst hy
          rcases List.mem_cons.mp (mem_of_mem_getLast? hx) with rfl | hxm
          · norm_num
          · have := hbound x hxm
            simp only [Nat.cast_zero, zero_add] at this
            exact le_trans this hfrac
        simpa using this

/-- C8, witness: a one-page image document whose engine reports the
fractions 0 then 1 during the page. -/
theorem c8_witness :
    List.Chain' (· ≤ ·) ((runProcessFile (sampleJob "j8") (.ok ())
      (.image [{ progressEvents := [0, 1], outcome := .ok "w" 80, duration := 50 }])
      4).progressTrace) :=
  c8_theorem (sampleJob "j8") (.ok ())
    (.image [{ progressEvents := [0, 1], outcome := .ok "w" 80, duration := 50 }]) 4
    (by
      intro p hp
      simp only [contentPages, resolveContent, List.mem_singleton] at hp
      subst hp
      exact ⟨List.chain'_pair.mpr (by norm_num), by decide⟩)

/-- C2, witness for the amended bound at two concurrent callers. -/
theorem c2_witness :
    (swRun (swInit [.response 200, .netFailure]) [0, 1, 0, 1]).fetchCount
      ≤ ([FetchOutcome.response 200, FetchOutcome.netFailure]).length :=
  c2_theorem.1 [.response 200, .netFailure] [0, 1, 0, 1]
